import Mathlib

/-!
Verification of the IronRDP input-event PDU codec
(`crates/ironrdp-pdu/src/input/mod.rs`).

The byte stream is modelled as a `List Nat` (each element one octet,
intended `< 256`); a decoder takes the stream and returns either a typed
error or the decoded value together with the unconsumed remainder of the
stream, mirroring the way the Rust code pulls bytes from an `io::Read`
cursor.  An encoder produces the list of bytes it writes; the sole
non-IO failure mode of the Rust encoder (the `unwrap` on
`InputEventType::to_u16`) is modelled by returning `Option`, with `none`
standing for a panic.
-/

deriving instance DecidableEq for Except

/-- The error enumeration `InputEventError` of `input/mod.rs`.  The
`io::Error` payload of the `IOError` variant carries no information the
codec inspects, so it is dropped. -/
inductive InputEventError where
  | IOError
  | InvalidInputEventType (eventType : Nat)
  | EncryptionNotSupported
  | EventCodeUnsupported (code : Nat)
  | KeyboardFlagsUnsupported (flags : Nat)
  | SynchronizeFlagsUnsupported (flags : Nat)
  | EmptyFastPathInput
  deriving DecidableEq, Repr

/-- `byteorder`'s `read_u16::<LittleEndian>`: consume two bytes, little
endian; fewer than two available bytes is an IO (input-exhausted)
failure. -/
def readU16LE : List Nat → Except InputEventError (Nat × List Nat)
  | b0 :: b1 :: rest => .ok (b0 + 256 * b1, rest)
  | _ => .error .IOError

/-- `byteorder`'s `read_u32::<LittleEndian>`. -/
def readU32LE : List Nat → Except InputEventError (Nat × List Nat)
  | b0 :: b1 :: b2 :: b3 :: rest =>
      .ok (b0 + 256 * b1 + 65536 * b2 + 16777216 * b3, rest)
  | _ => .error .IOError

/-- `byteorder`'s `write_u16::<LittleEndian>`: emit the low 16 bits of
the value, little endian (a Rust `u16` argument; `as u16` narrowing by a
caller is captured by the implicit `% 2^16`). -/
def writeU16LE (v : Nat) : List Nat :=
  [v % 256, v / 256 % 256]

/-- `byteorder`'s `write_u32::<LittleEndian>`. -/
def writeU32LE (v : Nat) : List Nat :=
  [v % 256, v / 256 % 256, v / 65536 % 256, v / 16777216 % 256]

/-- Modelled from the spec: the variant payload type `SyncPdu`
(`input/sync.rs`) is not among the provided sources.  The spec does not
enumerate the variant field layouts, and its worked scenario (§8)
treats a sync element and a scan-code element as 6-byte units, i.e. the
6-byte event header followed by an empty variant payload; accordingly
each payload is modelled as an empty record whose codec reads and
writes no bytes and reports `buffer_length` 0, satisfying the codec
contract of §4.1. -/
structure SyncPdu where
  deriving DecidableEq, Repr

/-- Modelled from the spec: payload type `UnusedPdu` (`input/unused.rs`),
see `SyncPdu`. -/
structure UnusedPdu where
  deriving DecidableEq, Repr

/-- Modelled from the spec: payload type `ScanCodePdu`
(`input/scan_code.rs`), see `SyncPdu`. -/
structure ScanCodePdu where
  deriving DecidableEq, Repr

/-- Modelled from the spec: payload type `UnicodePdu`
(`input/unicode.rs`), see `SyncPdu`. -/
structure UnicodePdu where
  deriving DecidableEq, Repr

/-- Modelled from the spec: payload type `MousePdu` (`input/mouse.rs`),
see `SyncPdu`. -/
structure MousePdu where
  deriving DecidableEq, Repr

/-- Modelled from the spec: payload type `MouseXPdu`
(`input/mouse_x.rs`), see `SyncPdu`. -/
structure MouseXPdu where
  deriving DecidableEq, Repr

/-- Modelled from the spec: payload type `MouseRelPdu`
(`input/mouse_rel.rs`), see `SyncPdu`. -/
structure MouseRelPdu where
  deriving DecidableEq, Repr

def SyncPdu.fromBuffer (s : List Nat) : Except InputEventError (SyncPdu × List Nat) :=
  .ok (⟨⟩, s)

def SyncPdu.toBuffer (_ : SyncPdu) : List Nat := []

def SyncPdu.bufferLength (_ : SyncPdu) : Nat := 0

def UnusedPdu.fromBuffer (s : List Nat) : Except InputEventError (UnusedPdu × List Nat) :=
  .ok (⟨⟩, s)

def UnusedPdu.toBuffer (_ : UnusedPdu) : List Nat := []

def UnusedPdu.bufferLength (_ : UnusedPdu) : Nat := 0

def ScanCodePdu.fromBuffer (s : List Nat) : Except InputEventError (ScanCodePdu × List Nat) :=
  .ok (⟨⟩, s)

def ScanCodePdu.toBuffer (_ : ScanCodePdu) : List Nat := []

def ScanCodePdu.bufferLength (_ : ScanCodePdu) : Nat := 0

def UnicodePdu.fromBuffer (s : List Nat) : Except InputEventError (UnicodePdu × List Nat) :=
  .ok (⟨⟩, s)

def UnicodePdu.toBuffer (_ : UnicodePdu) : List Nat := []

def UnicodePdu.bufferLength (_ : UnicodePdu) : Nat := 0

def MousePdu.fromBuffer (s : List Nat) : Except InputEventError (MousePdu × List Nat) :=
  .ok (⟨⟩, s)

def MousePdu.toBuffer (_ : MousePdu) : List Nat := []

def MousePdu.bufferLength (_ : MousePdu) : Nat := 0

def MouseXPdu.fromBuffer (s : List Nat) : Except InputEventError (MouseXPdu × List Nat) :=
  .ok (⟨⟩, s)

def MouseXPdu.toBuffer (_ : MouseXPdu) : List Nat := []

def MouseXPdu.bufferLength (_ : MouseXPdu) : Nat := 0

def MouseRelPdu.fromBuffer (s : List Nat) : Except InputEventError (MouseRelPdu × List Nat) :=
  .ok (⟨⟩, s)

def MouseRelPdu.toBuffer (_ : MouseRelPdu) : List Nat := []

def MouseRelPdu.bufferLength (_ : MouseRelPdu) : Nat := 0

/-- The tagged union `InputEvent` of `input/mod.rs`. -/
inductive InputEvent where
  | Sync (pdu : SyncPdu)
  | Unused (pdu : UnusedPdu)
  | ScanCode (pdu : ScanCodePdu)
  | Unicode (pdu : UnicodePdu)
  | Mouse (pdu : MousePdu)
  | MouseX (pdu : MouseXPdu)
  | MouseRel (pdu : MouseRelPdu)
  deriving DecidableEq, Repr

/-- The `repr(u16)` discriminant enumeration `InputEventType`. -/
inductive InputEventType where
  | Sync
  | Unused
  | ScanCode
  | Unicode
  | Mouse
  | MouseX
  | MouseRel
  deriving DecidableEq, Repr

/-- The derived `FromPrimitive` conversion `InputEventType::from_u16`:
known discriminants map to their variant, everything else to `None`. -/
def InputEventType.fromU16 (v : Nat) : Option InputEventType :=
  if v = 0x0000 then some .Sync
  else if v = 0x0002 then some .Unused
  else if v = 0x0004 then some .ScanCode
  else if v = 0x0005 then some .Unicode
  else if v = 0x8001 then some .Mouse
  else if v = 0x8002 then some .MouseX
  else if v = 0x8004 then some .MouseRel
  else none

/-- The derived `ToPrimitive` conversion `InputEventType::to_u16`. -/
def InputEventType.toU16 : InputEventType → Option Nat
  | .Sync => some 0x0000
  | .Unused => some 0x0002
  | .ScanCode => some 0x0004
  | .Unicode => some 0x0005
  | .Mouse => some 0x8001
  | .MouseX => some 0x8002
  | .MouseRel => some 0x8004

/-- `impl From<&InputEvent> for InputEventType`. -/
def InputEventType.ofEvent : InputEvent → InputEventType
  | .Sync _ => .Sync
  | .Unused _ => .Unused
  | .ScanCode _ => .ScanCode
  | .Unicode _ => .Unicode
  | .Mouse _ => .Mouse
  | .MouseX _ => .MouseX
  | .MouseRel _ => .MouseRel

/-- `InputEvent::from_buffer`: read and discard the 4-byte event time,
read the 2-byte discriminant, reject unknown discriminants, and
delegate to the selected variant decoder. -/
def InputEvent.fromBuffer (s : List Nat) : Except InputEventError (InputEvent × List Nat) :=
  match readU32LE s with
  | .error e => .error e
  | .ok (_eventTime, s) =>
    match readU16LE s with
    | .error e => .error e
    | .ok (eventType, s) =>
      match InputEventType.fromU16 eventType with
      | none => .error (.InvalidInputEventType eventType)
      | some .Sync =>
        match SyncPdu.fromBuffer s with
        | .error e => .error e
        | .ok (pdu, s) => .ok (.Sync pdu, s)
      | some .Unused =>
        match UnusedPdu.fromBuffer s with
        | .error e => .error e
        | .ok (pdu, s) => .ok (.Unused pdu, s)
      | some .ScanCode =>
        match ScanCodePdu.fromBuffer s with
        | .error e => .error e
        | .ok (pdu, s) => .ok (.ScanCode pdu, s)
      | some .Unicode =>
        match UnicodePdu.fromBuffer s with
        | .error e => .error e
        | .ok (pdu, s) => .ok (.Unicode pdu, s)
      | some .Mouse =>
        match MousePdu.fromBuffer s with
        | .error e => .error e
        | .ok (pdu, s) => .ok (.Mouse pdu, s)
      | some .MouseX =>
        match MouseXPdu.fromBuffer s with
        | .error e => .error e
        | .ok (pdu, s) => .ok (.MouseX pdu, s)
      | some .MouseRel =>
        match MouseRelPdu.fromBuffer s with
        | .error e => .error e
        | .ok (pdu, s) => .ok (.MouseRel pdu, s)

/-- `InputEvent::to_buffer`: write a zero 4-byte event time, the
discriminant derived from the variant (the `unwrap` on `to_u16` is
modelled by `Option`, `none` standing for a panic), then the variant
payload. -/
def InputEvent.toBuffer (e : InputEvent) : Option (List Nat) :=
  match (InputEventType.ofEvent e).toU16 with
  | none => none
  | some v =>
    some (writeU32LE 0 ++ writeU16LE v ++
      match e with
      | .Sync pdu => pdu.toBuffer
      | .Unused pdu => pdu.toBuffer
      | .ScanCode pdu => pdu.toBuffer
      | .Unicode pdu => pdu.toBuffer
      | .Mouse pdu => pdu.toBuffer
      | .MouseX pdu => pdu.toBuffer
      | .MouseRel pdu => pdu.toBuffer)

/-- `InputEvent::buffer_length`: a 6-byte header (4-byte event time +
2-byte discriminant) plus the active variant's payload length. -/
def InputEvent.bufferLength (e : InputEvent) : Nat :=
  6 + match e with
  | .Sync pdu => pdu.bufferLength
  | .Unused pdu => pdu.bufferLength
  | .ScanCode pdu => pdu.bufferLength
  | .Unicode pdu => pdu.bufferLength
  | .Mouse pdu => pdu.bufferLength
  | .MouseX pdu => pdu.bufferLength
  | .MouseRel pdu => pdu.bufferLength

/-- The container `InputEventPdu(pub Vec<InputEvent>)`. -/
structure InputEventPdu where
  events : List InputEvent
  deriving DecidableEq, Repr

/-- The element loop of `InputEventPdu::from_buffer`:
`(0..number_of_events).map(|_| InputEvent::from_buffer(..)).collect::<Result<Vec<_>, _>>()`. -/
def decodeEvents : Nat → List Nat → Except InputEventError (List InputEvent × List Nat)
  | 0, s => .ok ([], s)
  | n + 1, s =>
    match InputEvent.fromBuffer s with
    | .error e => .error e
    | .ok (ev, s) =>
      match decodeEvents n s with
      | .error e => .error e
      | .ok (evs, s) => .ok (ev :: evs, s)

/-- The element loop of `InputEventPdu::to_buffer`. -/
def encodeEvents : List InputEvent → Option (List Nat)
  | [] => some []
  | e :: es =>
    match InputEvent.toBuffer e with
    | none => none
    | some b =>
      match encodeEvents es with
      | none => none
      | some bs => some (b ++ bs)

/-- `InputEventPdu::from_buffer`: read the event count, read and
discard the 2-byte padding, then decode exactly `count` events,
propagating the first element failure. -/
def InputEventPdu.fromBuffer (s : List Nat) : Except InputEventError (InputEventPdu × List Nat) :=
  match readU16LE s with
  | .error e => .error e
  | .ok (numberOfEvents, s) =>
    match readU16LE s with
    | .error e => .error e
    | .ok (_padding, s) =>
      match decodeEvents numberOfEvents s with
      | .error e => .error e
      | .ok (events, s) => .ok (⟨events⟩, s)

/-- `InputEventPdu::to_buffer`: write `self.0.len() as u16` (the `as
u16` narrowing is the `% 2^16` inside `writeU16LE`), a zero padding
word, then the events in container order. -/
def InputEventPdu.toBuffer (p : InputEventPdu) : Option (List Nat) :=
  match encodeEvents p.events with
  | none => none
  | some body => some (writeU16LE p.events.length ++ writeU16LE 0 ++ body)

/-- `InputEventPdu::buffer_length`: 4 bytes of count + padding plus the
sum of the elements' lengths. -/
def InputEventPdu.bufferLength (p : InputEventPdu) : Nat :=
  4 + (p.events.map InputEvent.bufferLength).sum

/-! ### Helper lemmas about the wire image of an event -/

/-- The concrete byte image of one encoded event: a zero 4-byte event
time, the little-endian discriminant, and the (empty) payload. -/
def eventBytes : InputEvent → List Nat
  | .Sync _ => [0, 0, 0, 0, 0, 0]
  | .Unused _ => [0, 0, 0, 0, 2, 0]
  | .ScanCode _ => [0, 0, 0, 0, 4, 0]
  | .Unicode _ => [0, 0, 0, 0, 5, 0]
  | .Mouse _ => [0, 0, 0, 0, 1, 128]
  | .MouseX _ => [0, 0, 0, 0, 2, 128]
  | .MouseRel _ => [0, 0, 0, 0, 4, 128]

theorem InputEvent.toBuffer_eq_eventBytes (e : InputEvent) : e.toBuffer = some (eventBytes e) := by
  cases e <;> rfl

theorem eventBytes_length (e : InputEvent) : (eventBytes e).length = 6 := by
  cases e <;> rfl

theorem eventBytes_bufferLength (e : InputEvent) :
    (eventBytes e).length = e.bufferLength := by
  cases e <;> rfl

theorem InputEvent.fromBuffer_eventBytes (e : InputEvent) (rest : List Nat) :
    InputEvent.fromBuffer (eventBytes e ++ rest) = .ok (e, rest) := by
  cases e <;> rfl

/-- The concatenated byte image of a list of encoded events. -/
def eventsWire (evs : List InputEvent) : List Nat :=
  (evs.map eventBytes).flatten

theorem eventsWire_nil : eventsWire [] = [] := rfl

theorem eventsWire_cons (e : InputEvent) (es : List InputEvent) :
    eventsWire (e :: es) = eventBytes e ++ eventsWire es := rfl

theorem encodeEvents_eq (evs : List InputEvent) :
    encodeEvents evs = some (eventsWire evs) := by
  induction evs with
  | nil => rfl
  | cons e es ih =>
    simp only [encodeEvents, InputEvent.toBuffer_eq_eventBytes, ih, eventsWire_cons]

theorem InputEventPdu.toBuffer_eq_wire (p : InputEventPdu) :
    p.toBuffer = some (writeU16LE p.events.length ++ 0 :: 0 :: eventsWire p.events) := by
  simp only [InputEventPdu.toBuffer, encodeEvents_eq]
  rfl

theorem readU16LE_writeU16LE (n : Nat) (rest : List Nat) :
    readU16LE (writeU16LE n ++ rest) = .ok (n % 65536, rest) := by
  have h : n % 256 + 256 * (n / 256 % 256) = n % 65536 := by omega
  simp only [writeU16LE, List.cons_append, List.nil_append, readU16LE, h]

/-- Decoding `evs.length + m` events from the wire image of `evs`
followed by `rest` consumes the image exactly and continues with `m`
events on `rest`. -/
theorem decodeEvents_skip (evs : List InputEvent) (m : Nat) (rest : List Nat) :
    decodeEvents (evs.length + m) (eventsWire evs ++ rest) =
      match decodeEvents m rest with
      | .error e => .error e
      | .ok (l, s) => .ok (evs ++ l, s) := by
  induction evs with
  | nil =>
    simp only [List.length_nil, Nat.zero_add, eventsWire_nil, List.nil_append]
    cases decodeEvents m rest with
    | error e => rfl
    | ok x => rfl
  | cons e es ih =>
    have hn : (e :: es).length + m = (es.length + m) + 1 := by
      simp [Nat.succ_add]
    rw [hn, eventsWire_cons, List.append_assoc]
    simp only [decodeEvents, InputEvent.fromBuffer_eventBytes, ih]
    cases decodeEvents m rest with
    | error e => rfl
    | ok x => rfl

theorem decodeEvents_wire (evs : List InputEvent) (rest : List Nat) :
    decodeEvents evs.length (eventsWire evs ++ rest) = .ok (evs, rest) := by
  have h := decodeEvents_skip evs 0 rest
  simpa [decodeEvents] using h

theorem eventsWire_length (evs : List InputEvent) :
    (eventsWire evs).length = (evs.map InputEvent.bufferLength).sum := by
  induction evs with
  | nil => rfl
  | cons e es ih =>
    simp only [eventsWire_cons, List.length_append, ih, List.map_cons, List.sum_cons,
      eventBytes_bufferLength]

/-- Decoding a PDU from its wire image followed by `rest` recovers the
value and leaves `rest`, provided the count fits the 16-bit field. -/
theorem InputEventPdu.fromBuffer_wire (evs : List InputEvent) (rest : List Nat)
    (h : evs.length < 65536) :
    InputEventPdu.fromBuffer (writeU16LE evs.length ++ 0 :: 0 :: (eventsWire evs ++ rest)) =
      .ok (⟨evs⟩, rest) := by
  have hmod : evs.length % 65536 = evs.length := Nat.mod_eq_of_lt h
  simp only [InputEventPdu.fromBuffer, readU16LE_writeU16LE, hmod]
  simp only [readU16LE, decodeEvents_wire]

/-! ### Helper lemmas about truncated input -/

theorem readU16LE_nil : readU16LE [] = .error .IOError := rfl

theorem readU16LE_single (a : Nat) : readU16LE [a] = .error .IOError := rfl

theorem readU16LE_cons (a b : Nat) (rest : List Nat) :
    readU16LE (a :: b :: rest) = .ok (a + 256 * b, rest) := rfl

theorem InputEvent.fromBuffer_take_eventBytes (e : InputEvent) (k : Nat) (hk : k < 6) :
    InputEvent.fromBuffer ((eventBytes e).take k) = .error .IOError := by
  cases e <;> rename_i p <;> cases p <;> interval_cases k <;> decide

/-- Truncating the wire image of a list of events strictly inside the
image makes the element loop fail with the IO (input-exhausted)
error. -/
theorem decodeEvents_take (evs : List InputEvent) (k : Nat)
    (hk : k < (eventsWire evs).length) :
    decodeEvents evs.length ((eventsWire evs).take k) = .error .IOError := by
  induction evs generalizing k with
  | nil => simp [eventsWire_nil] at hk
  | cons e es ih =>
    rw [eventsWire_cons] at hk ⊢
    rw [List.take_append_eq_append_take]
    by_cases h6 : k < 6
    · have hz : k - (eventBytes e).length = 0 := by
        rw [eventBytes_length]; omega
      rw [hz, List.take_zero, List.append_nil]
      show decodeEvents (es.length + 1) _ = _
      simp only [decodeEvents, InputEvent.fromBuffer_take_eventBytes e k h6]
    · have h6' : (eventBytes e).length ≤ k := by rw [eventBytes_length]; omega
      rw [List.take_of_length_le h6']
      have hk' : k - (eventBytes e).length < (eventsWire es).length := by
        rw [eventBytes_length] at *
        rw [List.length_append, eventBytes_length] at hk
        omega
      show decodeEvents (es.length + 1) _ = _
      simp only [decodeEvents, InputEvent.fromBuffer_eventBytes, ih _ hk']

/-- Truncating a full encoded PDU strictly inside makes decode fail
with the IO (input-exhausted) error. -/
theorem InputEventPdu.fromBuffer_take (evs : List InputEvent) (k : Nat)
    (hn : evs.length < 65536) (hk : k < 4 + (eventsWire evs).length) :
    InputEventPdu.fromBuffer
      ((writeU16LE evs.length ++ 0 :: 0 :: eventsWire evs).take k) = .error .IOError := by
  have hmod : evs.length % 256 + 256 * (evs.length / 256 % 256) = evs.length := by omega
  match k with
  | 0 => rfl
  | 1 =>
    simp only [writeU16LE, List.cons_append, List.nil_append, List.take_succ_cons,
      List.take_zero]
    simp only [InputEventPdu.fromBuffer, readU16LE_single]
  | 2 =>
    simp only [writeU16LE, List.cons_append, List.nil_append, List.take_succ_cons,
      List.take_zero]
    simp only [InputEventPdu.fromBuffer, readU16LE_cons, readU16LE_nil]
  | 3 =>
    simp only [writeU16LE, List.cons_append, List.nil_append, List.take_succ_cons,
      List.take_zero]
    simp only [InputEventPdu.fromBuffer, readU16LE_cons, readU16LE_single]
  | j + 4 =>
    have hj : j < (eventsWire evs).length := by omega
    simp only [writeU16LE, List.cons_append, List.nil_append, List.take_succ_cons]
    simp only [InputEventPdu.fromBuffer, readU16LE_cons, hmod,
      decodeEvents_take evs j hj]

/-! ### The claims -/

/-- C1: for every validly constructed input-event value (an
`InputEvent`, or an `InputEventPdu` whose event count fits the 16-bit
count field), decoding the bytes produced by encoding the value yields
the value back, consuming the whole buffer. -/
theorem c1_decode_encode_round_trip :
    (∀ (e : InputEvent) (b : List Nat), InputEvent.toBuffer e = some b →
      InputEvent.fromBuffer b = .ok (e, [])) ∧
    (∀ (p : InputEventPdu) (b : List Nat), p.events.length < 65536 →
      InputEventPdu.toBuffer p = some b → InputEventPdu.fromBuffer b = .ok (p, [])) := by
  constructor
  · intro e b hb
    rw [InputEvent.toBuffer_eq_eventBytes, Option.some_inj] at hb
    subst hb
    simpa using InputEvent.fromBuffer_eventBytes e []
  · intro p b hlen hb
    obtain ⟨evs⟩ := p
    rw [InputEventPdu.toBuffer_eq_wire, Option.some_inj] at hb
    subst hb
    simpa using InputEventPdu.fromBuffer_wire evs [] hlen

/-- C1 witness: a mouse event and the spec's two-element scenario
(count 2, a sync element, then a scan-code element) both decode back
from their encodings. -/
theorem c1_decode_encode_round_trip_witness :
    InputEvent.fromBuffer [0, 0, 0, 0, 1, 128] = .ok (.Mouse ⟨⟩, []) ∧
    InputEventPdu.fromBuffer [2, 0, 0, 0, 0, 0, 0, 0, 0, 0, 0, 0, 0, 0, 4, 0] =
      .ok (⟨[.Sync ⟨⟩, .ScanCode ⟨⟩]⟩, []) :=
  ⟨c1_decode_encode_round_trip.1 (.Mouse ⟨⟩) [0, 0, 0, 0, 1, 128] (by decide),
   c1_decode_encode_round_trip.2 ⟨[.Sync ⟨⟩, .ScanCode ⟨⟩]⟩
     [2, 0, 0, 0, 0, 0, 0, 0, 0, 0, 0, 0, 0, 0, 4, 0] (by decide) (by decide)⟩

/-- C2: encoding writes exactly `buffer_length` bytes; the container's
`buffer_length` is 4 (count + reserved) plus the sum of the elements'
lengths, and each element's `buffer_length` is 6 (timestamp +
discriminant) plus its variant payload length. -/
theorem c2_encode_length_invariant :
    (∀ (e : InputEvent) (b : List Nat), InputEvent.toBuffer e = some b →
      b.length = e.bufferLength) ∧
    (∀ (p : InputEventPdu) (b : List Nat), InputEventPdu.toBuffer p = some b →
      b.length = p.bufferLength) ∧
    (∀ p : InputEventPdu,
      p.bufferLength = 4 + (p.events.map InputEvent.bufferLength).sum) ∧
    (∀ p : SyncPdu, (InputEvent.Sync p).bufferLength = 6 + p.bufferLength) ∧
    (∀ p : UnusedPdu, (InputEvent.Unused p).bufferLength = 6 + p.bufferLength) ∧
    (∀ p : ScanCodePdu, (InputEvent.ScanCode p).bufferLength = 6 + p.bufferLength) ∧
    (∀ p : UnicodePdu, (InputEvent.Unicode p).bufferLength = 6 + p.bufferLength) ∧
    (∀ p : MousePdu, (InputEvent.Mouse p).bufferLength = 6 + p.bufferLength) ∧
    (∀ p : MouseXPdu, (InputEvent.MouseX p).bufferLength = 6 + p.bufferLength) ∧
    (∀ p : MouseRelPdu, (InputEvent.MouseRel p).bufferLength = 6 + p.bufferLength) := by
  refine ⟨?_, ?_, fun _ => rfl, fun _ => rfl, fun _ => rfl, fun _ => rfl, fun _ => rfl,
    fun _ => rfl, fun _ => rfl, fun _ => rfl⟩
  · intro e b hb
    rw [InputEvent.toBuffer_eq_eventBytes, Option.some_inj] at hb
    subst hb
    exact eventBytes_bufferLength e
  · intro p b hb
    rw [InputEventPdu.toBuffer_eq_wire, Option.some_inj] at hb
    subst hb
    simp only [List.length_append, writeU16LE, InputEventPdu.bufferLength,
      eventsWire_length, List.length_cons, List.length_nil]
    omega

/-- C2 witness: a mouse event encodes to 6 = `buffer_length` bytes and
the empty container to 4 = `buffer_length` bytes. -/
theorem c2_encode_length_invariant_witness :
    ([0, 0, 0, 0, 1, 128] : List Nat).length = (InputEvent.Mouse ⟨⟩).bufferLength ∧
    ([0, 0, 0, 0] : List Nat).length = (InputEventPdu.mk []).bufferLength :=
  ⟨c2_encode_length_invariant.1 (.Mouse ⟨⟩) [0, 0, 0, 0, 1, 128] (by decide),
   c2_encode_length_invariant.2.1 ⟨[]⟩ [0, 0, 0, 0] (by decide)⟩

/-- C3: an input whose 2-byte little-endian discriminant is outside
`{0, 2, 4, 5, 0x8001, 0x8002, 0x8004}` makes `InputEvent` decode fail
with `InvalidInputEventType` carrying the offending value. -/
theorem c3_invalid_discriminant_rejected :
    ∀ (t0 t1 t2 t3 d0 d1 : Nat) (rest : List Nat), d0 < 256 → d1 < 256 →
      d0 + 256 * d1 ∉
        ([0x0000, 0x0002, 0x0004, 0x0005, 0x8001, 0x8002, 0x8004] : List Nat) →
      InputEvent.fromBuffer (t0 :: t1 :: t2 :: t3 :: d0 :: d1 :: rest) =
        .error (.InvalidInputEventType (d0 + 256 * d1)) := by
  intro t0 t1 t2 t3 d0 d1 rest _ _ hmem
  simp only [List.mem_cons, List.not_mem_nil, or_false, not_or] at hmem
  obtain ⟨n0, n2, n4, n5, n81, n82, n84⟩ := hmem
  simp only [InputEvent.fromBuffer, readU32LE, readU16LE, InputEventType.fromU16,
    if_neg n0, if_neg n2, if_neg n4, if_neg n5, if_neg n81, if_neg n82, if_neg n84]

/-- C3 witness: discriminant `0x0001` is rejected with
`InvalidInputEventType 1`. -/
theorem c3_invalid_discriminant_rejected_witness :
    InputEvent.fromBuffer [0, 0, 0, 0, 1, 0] = .error (.InvalidInputEventType 1) := by
  have h := c3_invalid_discriminant_rejected 0 0 0 0 1 0 []
    (by decide) (by decide) (by decide)
  simpa using h

/-- C4: a container input declaring count `n` but holding only
`evs.length < n` decodable elements and then bytes on which the next
element decode fails propagates that element's error, and never
returns a partial result. -/
theorem c4_count_is_authoritative :
    ∀ (n : Nat) (evs : List InputEvent) (junk : List Nat) (err : InputEventError),
      evs.length < n → n < 65536 →
      InputEvent.fromBuffer junk = .error err →
      InputEventPdu.fromBuffer (writeU16LE n ++ 0 :: 0 :: (eventsWire evs ++ junk)) =
        .error err := by
  intro n evs junk err hlt hn hjunk
  have hmod : n % 65536 = n := Nat.mod_eq_of_lt hn
  simp only [InputEventPdu.fromBuffer, readU16LE_writeU16LE, hmod, readU16LE_cons]
  obtain ⟨m, rfl⟩ : ∃ m, n = evs.length + (m + 1) := ⟨n - evs.length - 1, by omega⟩
  rw [decodeEvents_skip]
  simp only [decodeEvents, hjunk]

/-- C4 witness: count 1 with no element bytes at all fails with the IO
(input-exhausted) error of the missing first element. -/
theorem c4_count_is_authoritative_witness :
    InputEventPdu.fromBuffer [1, 0, 0, 0] = .error .IOError := by
  have h := c4_count_is_authoritative 1 [] [] .IOError
    (by decide) (by decide) (by decide)
  simpa using h

/-- C5: decoding any strict prefix of a valid encoded container fails
with the IO (input-exhausted) error; in the total `List`-based
embedding no read ever goes past the prefix's end and no panic
exists. -/
theorem c5_truncated_prefix_io_error :
    ∀ (p : InputEventPdu) (b : List Nat) (k : Nat),
      p.events.length < 65536 →
      InputEventPdu.toBuffer p = some b →
      k < b.length →
      InputEventPdu.fromBuffer (b.take k) = .error .IOError := by
  intro p b k hn hb hk
  rw [InputEventPdu.toBuffer_eq_wire, Option.some_inj] at hb
  subst hb
  apply InputEventPdu.fromBuffer_take p.events k hn
  simp only [List.length_append, writeU16LE, List.length_cons, List.length_nil] at hk
  omega

/-- C5 witness: the 3-byte prefix of the 4-byte minimal header fails
with the IO (input-exhausted) error. -/
theorem c5_truncated_prefix_io_error_witness :
    InputEventPdu.fromBuffer [0, 0, 0] = .error .IOError := by
  have h := c5_truncated_prefix_io_error ⟨[]⟩ [0, 0, 0, 0] 3
    (by decide) (by decide) (by decide)
  simpa using h

/-- C6: the 4-byte event time is read but ignored on decode and
written as zero on encode, and the container's 2-byte padding is
written as zero on encode and ignored on decode, so the decoded value
does not depend on either field's contents. -/
theorem c6_ignored_time_and_padding :
    (∀ (t0 t1 t2 t3 : Nat) (rest : List Nat),
      InputEvent.fromBuffer (t0 :: t1 :: t2 :: t3 :: rest) =
        InputEvent.fromBuffer (0 :: 0 :: 0 :: 0 :: rest)) ∧
    (∀ (c0 c1 p0 p1 : Nat) (rest : List Nat),
      InputEventPdu.fromBuffer (c0 :: c1 :: p0 :: p1 :: rest) =
        InputEventPdu.fromBuffer (c0 :: c1 :: 0 :: 0 :: rest)) ∧
    (∀ (e : InputEvent) (b : List Nat), InputEvent.toBuffer e = some b →
      b.take 4 = [0, 0, 0, 0]) ∧
    (∀ (p : InputEventPdu) (b : List Nat), InputEventPdu.toBuffer p = some b →
      (b.drop 2).take 2 = [0, 0]) := by
  refine ⟨fun t0 t1 t2 t3 rest => rfl, fun c0 c1 p0 p1 rest => rfl, ?_, ?_⟩
  · intro e b hb
    rw [InputEvent.toBuffer_eq_eventBytes, Option.some_inj] at hb
    subst hb
    cases e <;> rfl
  · intro p b hb
    rw [InputEventPdu.toBuffer_eq_wire, Option.some_inj] at hb
    subst hb
    rfl

/-- C6 witness: a mouse event's encoding starts with four zero bytes,
and the empty container's encoding carries a zero padding word. -/
theorem c6_ignored_time_and_padding_witness :
    ([0, 0, 0, 0, 1, 128] : List Nat).take 4 = [0, 0, 0, 0] ∧
    (([0, 0, 0, 0] : List Nat).drop 2).take 2 = [0, 0] :=
  ⟨c6_ignored_time_and_padding.2.2.1 (.Mouse ⟨⟩) [0, 0, 0, 0, 1, 128] (by decide),
   c6_ignored_time_and_padding.2.2.2 ⟨[]⟩ [0, 0, 0, 0] (by decide)⟩

/-- The count field of any encoded container reads back as the element
count reduced modulo 2^16 (the `as u16` narrowing in `to_buffer`). -/
theorem readU16LE_toBuffer (p : InputEventPdu) (b : List Nat)
    (hb : p.toBuffer = some b) :
    readU16LE b = .ok (p.events.length % 65536, b.drop 2) := by
  rw [InputEventPdu.toBuffer_eq_wire, Option.some_inj] at hb
  subst hb
  rw [readU16LE_writeU16LE]
  rfl

/-- An `Except` value known to carry a count reduced mod 2^16 can
never carry the count 65536 itself. -/
theorem count_field_ne (n : Nat) (d : List Nat)
    (x : Except InputEventError (Nat × List Nat)) (hx : x = .ok (n % 65536, d)) :
    x ≠ .ok (65536, d) := by
  subst hx
  intro h
  injection h with h
  have h1 : n % 65536 = 65536 := congrArg Prod.fst h
  omega

/-- C7 counterexample: for the container holding 2^16 events the
written count field is not the element count — `len as u16` wraps, so
the count field cannot read back as 65536. -/
theorem c7_count_field_counterexample :
    ∃ b, InputEventPdu.toBuffer ⟨List.replicate 65536 (InputEvent.Sync ⟨⟩)⟩ = some b ∧
      readU16LE b ≠ .ok (65536, b.drop 2) :=
  ⟨_, InputEventPdu.toBuffer_eq_wire _,
    count_field_ne _ _ _ (readU16LE_toBuffer _ _ (InputEventPdu.toBuffer_eq_wire _))⟩

/-- C7 (amended): encode writes the 2-byte little-endian count field
equal to the element count reduced modulo 2^16 (the `as u16`
narrowing); whenever the collection holds fewer than 2^16 elements
this equals the exact element count. -/
theorem c7_count_field_amended :
    ∀ (p : InputEventPdu) (b : List Nat), InputEventPdu.toBuffer p = some b →
      readU16LE b = .ok (p.events.length % 65536, b.drop 2) ∧
      (p.events.length < 65536 → readU16LE b = .ok (p.events.length, b.drop 2)) := by
  intro p b hb
  rw [InputEventPdu.toBuffer_eq_wire, Option.some_inj] at hb
  subst hb
  constructor
  · rw [readU16LE_writeU16LE]
    rfl
  · intro h
    rw [readU16LE_writeU16LE, Nat.mod_eq_of_lt h]
    rfl

/-- C7 witness: the one-element container's encoding carries count 1. -/
theorem c7_count_field_amended_witness :
    readU16LE [1, 0, 0, 0, 0, 0, 0, 0, 0, 0] =
      .ok ((1 : Nat) % 65536, [0, 0, 0, 0, 0, 0, 0, 0]) ∧
    readU16LE [1, 0, 0, 0, 0, 0, 0, 0, 0, 0] = .ok (1, [0, 0, 0, 0, 0, 0, 0, 0]) := by
  have h := c7_count_field_amended ⟨[.Sync ⟨⟩]⟩
    [1, 0, 0, 0, 0, 0, 0, 0, 0, 0] (by decide)
  exact ⟨by simpa using h.1, by simpa using h.2 (by decide)⟩

/-- C8: a successful decode consumes exactly the PDU's own bytes —
decoding a well-formed encoding followed by trailing bytes returns the
value together with exactly the trailing bytes, and the consumed byte
count equals `buffer_length`. -/
theorem c8_exact_consumption :
    (∀ (e : InputEvent) (b rest : List Nat), InputEvent.toBuffer e = some b →
      InputEvent.fromBuffer (b ++ rest) = .ok (e, rest) ∧ b.length = e.bufferLength) ∧
    (∀ (p : InputEventPdu) (b rest : List Nat), p.events.length < 65536 →
      InputEventPdu.toBuffer p = some b →
      InputEventPdu.fromBuffer (b ++ rest) = .ok (p, rest) ∧
        b.length = p.bufferLength) := by
  constructor
  · intro e b rest hb
    rw [InputEvent.toBuffer_eq_eventBytes, Option.some_inj] at hb
    subst hb
    exact ⟨InputEvent.fromBuffer_eventBytes e rest, eventBytes_bufferLength e⟩
  · intro p b rest hlen hb
    obtain ⟨evs⟩ := p
    rw [InputEventPdu.toBuffer_eq_wire, Option.some_inj] at hb
    subst hb
    constructor
    · simpa [List.append_assoc] using InputEventPdu.fromBuffer_wire evs rest hlen
    · simp only [List.length_append, writeU16LE, InputEventPdu.bufferLength,
        eventsWire_length, List.length_cons, List.length_nil]
      omega

/-- C8 witness: the empty container followed by three trailing bytes
decodes leaving exactly those three bytes. -/
theorem c8_exact_consumption_witness :
    InputEventPdu.fromBuffer ([0, 0, 0, 0] ++ [9, 9, 9]) = .ok (⟨[]⟩, [9, 9, 9]) ∧
    ([0, 0, 0, 0] : List Nat).length = (InputEventPdu.mk []).bufferLength :=
  c8_exact_consumption.2 ⟨[]⟩ [0, 0, 0, 0] [9, 9, 9] (by decide) (by decide)

/-- C9: the empty container encodes to exactly `[0, 0, 0, 0]`, and the
4-byte all-zero buffer decodes to the empty container. -/
theorem c9_empty_pdu :
    InputEventPdu.toBuffer ⟨[]⟩ = some [0, 0, 0, 0] ∧
    InputEventPdu.fromBuffer [0, 0, 0, 0] = .ok (⟨[]⟩, []) := by
  constructor <;> decide

/-- C10: the variant-to-discriminant mapping is total — `to_u16` on
the derived `InputEventType` always yields a value, so the `unwrap` in
`InputEvent::to_buffer` never panics and encode always produces
bytes. -/
theorem c10_discriminant_conversion_total :
    ∀ e : InputEvent, (InputEventType.toU16 (InputEventType.ofEvent e)).isSome = true ∧
      (InputEvent.toBuffer e).isSome = true := by
  intro e
  cases e <;> exact ⟨rfl, rfl⟩
